import Mathlib

/-!
Formal model of the cash-cushion credential vault pipeline and its
symmetric envelope codec.

The model is a shallow embedding of the route handlers in the repository:

* the envelope codec `encrypt` / `decrypt`
  (src/app/api/plaid/exchange-token/route.ts and
  src/app/api/plaid/get-transactions/route.ts): a fresh 16-byte IV, an
  AES-256-GCM call, and the blob layout `hex(iv || authTag || ciphertext)`;
* the exchange-and-store handler (POST /api/plaid/exchange-token) with its
  upsert on the `item_id` conflict column;
* the stored-credential fetch handler (POST /api/plaid/get-transactions)
  with its ownership lookup, decrypt step and fixed 30-day window;
* the latest-item lookup (GET /api/user/plaid-items) and the transaction
  view handler (GET of the get-transactions route) which sorts by date.

Byte strings are `List (Fin 256)`; character strings handled by the codec
are `List Char`.  The AES-GCM primitive itself is the Node `crypto`
library, which is outside the repository; it is modelled from the spec
(section 4.1) as an abstract AEAD with a tamper-evident tag, see `AEAD`.
-/

namespace CashCushion

abbrev Byte := Fin 256

abbrev Bytes := List Byte

/-- Lower-case hexadecimal digit table, as produced by
`Buffer.toString('hex')` in the source. -/
def hexDigit (n : Nat) : Char :=
  match n with
  | 0 => '0' | 1 => '1' | 2 => '2' | 3 => '3' | 4 => '4'
  | 5 => '5' | 6 => '6' | 7 => '7' | 8 => '8' | 9 => '9'
  | 10 => 'a' | 11 => 'b' | 12 => 'c' | 13 => 'd' | 14 => 'e'
  | _ => 'f'

/-- Hex encoding of a byte string, two characters per byte
(`Buffer.toString('hex')`). -/
def hexEncode : Bytes → List Char
  | [] => []
  | b :: bs => hexDigit (b.val / 16) :: hexDigit (b.val % 16) :: hexEncode bs

/-- Value of a single hexadecimal character, if any. -/
def hexVal (c : Char) : Option (Fin 16) :=
  (List.finRange 16).find? (fun d => hexDigit d.val == c)

/-- Recombine a high and a low nibble into one byte. -/
def hexByte (hv lv : Fin 16) : Byte :=
  ⟨hv.val * 16 + lv.val, by omega⟩

/-- Modelled from the spec: the source parses blobs with
`Buffer.from(.., 'hex')`; the spec (section 4.1) requires the encoding to
be reversible byte-for-byte, so decoding is strict: it fails on an odd
length or a non-hex character. -/
def hexDecode : List Char → Option Bytes
  | [] => some []
  | [_] => none
  | a :: b :: rest =>
    match hexVal a, hexVal b, hexDecode rest with
    | some hv, some lv, some bs => some (hexByte hv lv :: bs)
    | _, _, _ => none

theorem hexVal_hexDigit : ∀ d : Fin 16, hexVal (hexDigit d.val) = some d := by
  decide

theorem hexVal_some_eq {c : Char} {d : Fin 16} (h : hexVal c = some d) :
    hexDigit d.val = c := by
  have := List.find?_some h
  simpa [beq_iff_eq] using this

theorem hexDecode_hexEncode (bs : Bytes) : hexDecode (hexEncode bs) = some bs := by
  induction bs with
  | nil => rfl
  | cons b bs ih =>
    have hhi : b.val / 16 < 16 := by omega
    have hlo : b.val % 16 < 16 := by omega
    simp only [hexEncode, hexDecode, hexVal_hexDigit ⟨b.val / 16, hhi⟩,
      hexVal_hexDigit ⟨b.val % 16, hlo⟩, ih]
    congr 1
    apply List.cons_eq_cons.mpr
    refine ⟨?_, rfl⟩
    apply Fin.ext
    simp [hexByte]
    omega

theorem hexEncode_append (xs ys : Bytes) :
    hexEncode (xs ++ ys) = hexEncode xs ++ hexEncode ys := by
  induction xs with
  | nil => rfl
  | cons b bs ih => simp [hexEncode, ih]

theorem hexEncode_length (bs : Bytes) : (hexEncode bs).length = 2 * bs.length := by
  induction bs with
  | nil => rfl
  | cons b bs ih => simp [hexEncode, ih]; omega

theorem hexEncode_injective {xs ys : Bytes} (h : hexEncode xs = hexEncode ys) :
    xs = ys := by
  have h2 := congrArg hexDecode h
  rw [hexDecode_hexEncode, hexDecode_hexEncode] at h2
  exact Option.some.inj h2

theorem hexDecode_some_length (cs : List Char) :
    ∀ (bs : Bytes), hexDecode cs = some bs → cs.length = 2 * bs.length :=
  match cs with
  | [] => fun bs h => by
    simp [hexDecode] at h
    simp [← h]
  | [c] => fun bs h => by
    simp [hexDecode] at h
  | a :: b :: rest => fun bs h => by
    have ih := hexDecode_some_length rest
    simp only [hexDecode] at h
    rcases hva : hexVal a with _ | v <;> rw [hva] at h
    · simp at h
    · rcases hvb : hexVal b with _ | w <;> rw [hvb] at h
      · simp at h
      · rcases hr : hexDecode rest with _ | bs2 <;> rw [hr] at h
        · simp at h
        · simp only [Option.some.injEq] at h
          subst h
          have h2 := ih bs2 hr
          simp [List.length_cons, h2]
          omega

/-- Changing one character of the hex encoding of a byte string either
breaks hex decoding outright, or decodes to the original bytes with
exactly the byte containing the changed nibble replaced by a different
byte. -/
theorem hexDecode_set_hexEncode (bs : Bytes) :
    ∀ (i : Nat) (c : Char) (hi : i < (hexEncode bs).length) (hj : i / 2 < bs.length),
      c ≠ (hexEncode bs).get ⟨i, hi⟩ →
      hexDecode ((hexEncode bs).set i c) = none ∨
      ∃ b : Byte, b ≠ bs.get ⟨i / 2, hj⟩ ∧
        hexDecode ((hexEncode bs).set i c) = some (bs.set (i / 2) b) := by
  induction bs with
  | nil => intro i c hi; simp [hexEncode] at hi
  | cons b0 rest ih =>
    intro i c hi hj hc
    have hhi : b0.val / 16 < 16 := by omega
    have hlo : b0.val % 16 < 16 := by omega
    rcases i with _ | i1
    · -- i = 0 : the high nibble of the first byte
      simp only [hexEncode, List.set_cons_zero]
      rcases hv : hexVal c with _ | v
      · left
        simp [hexDecode, hv]
      · right
        refine ⟨hexByte v ⟨b0.val % 16, hlo⟩, ?_, ?_⟩
        · intro he
          apply hc
          have hval := congrArg Fin.val he
          simp [hexByte] at hval
          have hv16 : v.val = b0.val / 16 := by omega
          have h2 := hexVal_some_eq hv
          rw [hv16] at h2
          simp [hexEncode, List.get]
          exact h2.symm
        · simp [hexDecode, hv, hexVal_hexDigit ⟨b0.val % 16, hlo⟩,
            hexDecode_hexEncode]
    rcases i1 with _ | j
    · -- i = 1 : the low nibble of the first byte
      simp only [hexEncode, List.set_cons_succ, List.set_cons_zero]
      rcases hv : hexVal c with _ | v
      · left
        simp [hexDecode, hv, hexVal_hexDigit ⟨b0.val / 16, hhi⟩]
      · right
        refine ⟨hexByte ⟨b0.val / 16, hhi⟩ v, ?_, ?_⟩
        · intro he
          apply hc
          have hval := congrArg Fin.val he
          simp [hexByte] at hval
          have hv16 : v.val = b0.val % 16 := by omega
          have h2 := hexVal_some_eq hv
          rw [hv16] at h2
          simp [hexEncode, List.get]
          exact h2.symm
        · simp [hexDecode, hv, hexVal_hexDigit ⟨b0.val / 16, hhi⟩,
            hexDecode_hexEncode]
    · -- i = j + 2 : inside the tail
      have hi2 : j < (hexEncode rest).length := by
        simp [hexEncode] at hi
        omega
      have hdiv : (j + 1 + 1) / 2 = j / 2 + 1 := by omega
      have hj2 : j / 2 < rest.length := by
        rw [hdiv] at hj
        simpa using hj
      have hc2 : c ≠ (hexEncode rest).get ⟨j, hi2⟩ := by
        simpa [hexEncode, List.get_eq_getElem] using hc
      rcases ih j c hi2 hj2 hc2 with hnone | ⟨b, hb, hsome⟩
      · left
        simp [hexEncode, hexDecode, hnone, hexVal_hexDigit ⟨b0.val / 16, hhi⟩,
          hexVal_hexDigit ⟨b0.val % 16, hlo⟩]
      · right
        refine ⟨b, ?_, ?_⟩
        · simp only [hdiv]
          simpa [List.get_eq_getElem] using hb
        · simp only [hexEncode, List.set_cons_succ, hexDecode,
            hexVal_hexDigit ⟨b0.val / 16, hhi⟩, hexVal_hexDigit ⟨b0.val % 16, hlo⟩,
            hsome, hdiv]
          congr 1
          apply List.cons_eq_cons.mpr
          refine ⟨?_, rfl⟩
          apply Fin.ext
          simp [hexByte]
          omega

/-- Error raised by `decrypt`; the handlers surface it as a distinct
`DecryptionError` message.  `authFailed` corresponds to the GCM tag not
verifying, `badHex` to a blob that is not well-formed hex. -/
inductive DecryptionError where
  | badHex
  | authFailed
deriving DecidableEq

/-- Modelled from the spec: the AES-256-GCM primitive lives in the Node
`crypto` library, outside this repository.  Following section 4.1 and the
glossary of the spec it is an AEAD: `enc key iv plain` returns the
ciphertext together with a 16-byte authentication tag; `dec` inverts an
honest encryption, rejects a nonce or tag that is not exactly 16 bytes,
and - the tamper-evidence the spec requires of the tag - rejects any
single-byte corruption of the nonce, the tag or the ciphertext. -/
structure AEAD where
  enc : Bytes → Bytes → Bytes → Bytes × Bytes
  dec : Bytes → Bytes → Bytes → Bytes → Option Bytes
  enc_tag_len : ∀ k iv p, (enc k iv p).2.length = 16
  dec_enc : ∀ k iv p, iv.length = 16 →
    dec k iv (enc k iv p).1 (enc k iv p).2 = some p
  dec_iv_len : ∀ k iv ct tag, iv.length ≠ 16 → dec k iv ct tag = none
  dec_tag_len : ∀ k iv ct tag, tag.length ≠ 16 → dec k iv ct tag = none
  tamper_iv : ∀ k iv p i b, iv.length = 16 → (hi : i < iv.length) →
    b ≠ iv.get ⟨i, hi⟩ →
    dec k (iv.set i b) (enc k iv p).1 (enc k iv p).2 = none
  tamper_tag : ∀ k iv p i b, iv.length = 16 →
    (hi : i < (enc k iv p).2.length) → b ≠ (enc k iv p).2.get ⟨i, hi⟩ →
    dec k iv (enc k iv p).1 ((enc k iv p).2.set i b) = none
  tamper_ct : ∀ k iv p i b, iv.length = 16 →
    (hi : i < (enc k iv p).1.length) → b ≠ (enc k iv p).1.get ⟨i, hi⟩ →
    dec k iv ((enc k iv p).1.set i b) (enc k iv p).2 = none

/-- `IV_LENGTH = 16` from the source. -/
def IV_LENGTH : Nat := 16

/-- `AUTH_TAG_LENGTH = 16` from the source. -/
def AUTH_TAG_LENGTH : Nat := 16

/-- The `encrypt` helper of the exchange-token route:
`Buffer.concat([iv, authTag, enc]).toString('hex')`.  The random IV drawn
by `crypto.randomBytes(IV_LENGTH)` is passed in explicitly. -/
def encrypt (A : AEAD) (key : Bytes) (iv : Bytes) (plain : Bytes) : List Char :=
  let r := A.enc key iv plain
  hexEncode (iv ++ r.2 ++ r.1)

/-- The `decrypt` helper of the get-transactions route: slice the first
32 hex characters as the IV, the next 32 as the auth tag, the remainder
as ciphertext, then decrypt and verify in one step.  Every failure is
caught and surfaced as a `DecryptionError`. -/
def decrypt (A : AEAD) (key : Bytes) (encryptedText : List Char) :
    Except DecryptionError Bytes :=
  match hexDecode (encryptedText.take (IV_LENGTH * 2)),
        hexDecode ((encryptedText.drop (IV_LENGTH * 2)).take (AUTH_TAG_LENGTH * 2)),
        hexDecode (encryptedText.drop ((IV_LENGTH + AUTH_TAG_LENGTH) * 2)) with
  | some iv, some tag, some ct =>
    match A.dec key iv ct tag with
    | some plain => Except.ok plain
    | none => Except.error DecryptionError.authFailed
  | _, _, _ => Except.error DecryptionError.badHex

theorem encrypt_eq (A : AEAD) (key iv p : Bytes) :
    encrypt A key iv p =
      hexEncode iv ++ hexEncode (A.enc key iv p).2 ++ hexEncode (A.enc key iv p).1 := by
  simp [encrypt, hexEncode_append]

theorem encrypt_take_iv (A : AEAD) (key iv p : Bytes) (h : iv.length = IV_LENGTH) :
    (encrypt A key iv p).take (IV_LENGTH * 2) = hexEncode iv := by
  have h1 : (hexEncode iv).length = IV_LENGTH * 2 := by
    simp [hexEncode_length, h, IV_LENGTH]
  rw [encrypt_eq, List.append_assoc, List.take_left' h1]

theorem encrypt_take_tag (A : AEAD) (key iv p : Bytes) (h : iv.length = IV_LENGTH) :
    ((encrypt A key iv p).drop (IV_LENGTH * 2)).take (AUTH_TAG_LENGTH * 2) =
      hexEncode (A.enc key iv p).2 := by
  have h1 : (hexEncode iv).length = IV_LENGTH * 2 := by
    simp [hexEncode_length, h, IV_LENGTH]
  have h2 : (hexEncode (A.enc key iv p).2).length = AUTH_TAG_LENGTH * 2 := by
    simp [hexEncode_length, A.enc_tag_len, AUTH_TAG_LENGTH]
  rw [encrypt_eq, List.append_assoc, List.drop_left' h1, List.take_left' h2]

theorem encrypt_drop_ct (A : AEAD) (key iv p : Bytes) (h : iv.length = IV_LENGTH) :
    (encrypt A key iv p).drop ((IV_LENGTH + AUTH_TAG_LENGTH) * 2) =
      hexEncode (A.enc key iv p).1 := by
  have h12 : (hexEncode iv ++ hexEncode (A.enc key iv p).2).length =
      (IV_LENGTH + AUTH_TAG_LENGTH) * 2 := by
    simp [List.length_append, hexEncode_length, h, A.enc_tag_len,
      IV_LENGTH, AUTH_TAG_LENGTH]
  rw [encrypt_eq, List.drop_left' h12]

/-- C1.  Round-trip of the envelope codec: decoding an encoding returns
exactly the original plaintext, for every plaintext, every key and every
16-byte nonce chosen during encoding.  The AES-GCM primitive is abstract:
the statement holds for every `AEAD` (see the structure for the
spec-modelled laws assumed of the external cipher). -/
theorem decrypt_encrypt_roundtrip (A : AEAD) (key iv p : Bytes)
    (h : iv.length = IV_LENGTH) :
    decrypt A key (encrypt A key iv p) = Except.ok p := by
  unfold decrypt
  rw [encrypt_take_iv A key iv p h, encrypt_take_tag A key iv p h,
    encrypt_drop_ct A key iv p h, hexDecode_hexEncode, hexDecode_hexEncode,
    hexDecode_hexEncode]
  simp [A.dec_enc key iv p h]

/-! ### A concrete AEAD instance

The laws of `AEAD` are satisfiable: `xorAEAD` below pairs the message
with a 16-byte checksum tag whose first byte is the XOR of all key,
nonce and message bytes, so every single-byte change flips the checksum.
It exists purely so that theorems quantified over an `AEAD` can be
instantiated on concrete inputs. -/

/-- XOR of two bytes. -/
def bxor (a b : Byte) : Byte :=
  ⟨a.val ^^^ b.val, by
    have ha : a.val < 2 ^ 8 := by simp
    have hb : b.val < 2 ^ 8 := by simp
    simpa using Nat.xor_lt_two_pow ha hb⟩

theorem bxor_comm (a b : Byte) : bxor a b = bxor b a := by
  apply Fin.ext; simp [bxor, Nat.xor_comm]

theorem bxor_assoc (a b c : Byte) : bxor (bxor a b) c = bxor a (bxor b c) := by
  apply Fin.ext; simp [bxor, Nat.xor_assoc]

theorem bxor_self (a : Byte) : bxor a a = 0 := by
  apply Fin.ext; simp [bxor]

theorem bxor_zero (a : Byte) : bxor a 0 = a := by
  apply Fin.ext; simp [bxor]

theorem zero_bxor (a : Byte) : bxor 0 a = a := by
  apply Fin.ext; simp [bxor]

theorem bxor_eq_zero {a b : Byte} (h : bxor a b = 0) : a = b := by
  apply Fin.ext
  have := congrArg Fin.val h
  simpa [bxor, Nat.xor_eq_zero] using this

theorem bxor_left_cancel {a b c : Byte} (h : bxor a b = bxor a c) : b = c := by
  have h2 : bxor a (bxor a b) = bxor a (bxor a c) := by rw [h]
  rwa [← bxor_assoc, ← bxor_assoc, bxor_self, zero_bxor, zero_bxor] at h2

theorem bxor_right_cancel {a b c : Byte} (h : bxor a c = bxor b c) : a = b := by
  apply bxor_left_cancel (a := c)
  rw [bxor_comm c a, bxor_comm c b]; exact h

/-- XOR checksum of a byte string. -/
def xorSum (l : Bytes) : Byte := l.foldr bxor 0

theorem foldr_bxor_init (xs : Bytes) (init : Byte) :
    xs.foldr bxor init = bxor (xorSum xs) init := by
  induction xs with
  | nil => simp [xorSum, zero_bxor]
  | cons x rest ih => simp [xorSum, List.foldr_cons, ih, bxor_assoc]

theorem xorSum_append (xs ys : Bytes) :
    xorSum (xs ++ ys) = bxor (xorSum xs) (xorSum ys) := by
  rw [xorSum, List.foldr_append, foldr_bxor_init]
  rfl

theorem xorSum_cons (x : Byte) (xs : Bytes) :
    xorSum (x :: xs) = bxor x (xorSum xs) := rfl

theorem xorSum_set (xs : Bytes) (i : Nat) (b : Byte) (h : i < xs.length) :
    xorSum (xs.set i b) = bxor (bxor (xorSum xs) (xs.get ⟨i, h⟩)) b := by
  induction xs generalizing i with
  | nil => simp at h
  | cons x rest ih =>
    cases i with
    | zero =>
      simp only [List.set_cons_zero, xorSum_cons, List.get]
      rw [bxor_assoc x (xorSum rest) x, bxor_comm (xorSum rest) x,
        ← bxor_assoc x x (xorSum rest), bxor_self, zero_bxor, bxor_comm]
    | succ j =>
      have hj : j < rest.length := by simpa using h
      simp only [List.set_cons_succ, xorSum_cons, List.get]
      rw [ih j hj, bxor_assoc x (xorSum rest) (rest.get ⟨j, hj⟩),
        ← bxor_assoc x (bxor (xorSum rest) (rest.get ⟨j, hj⟩)) b]

theorem xorSum_set_ne (xs : Bytes) (i : Nat) (b : Byte) (h : i < xs.length)
    (hb : b ≠ xs.get ⟨i, h⟩) : xorSum (xs.set i b) ≠ xorSum xs := by
  rw [xorSum_set xs i b h]
  intro he
  have h2 : bxor (xorSum xs) (bxor (xs.get ⟨i, h⟩) b) = bxor (xorSum xs) 0 := by
    rw [← bxor_assoc, he, bxor_zero]
  have h3 := bxor_left_cancel h2
  exact hb (bxor_eq_zero h3).symm

theorem xorSum_append3 (a b c : Bytes) :
    xorSum (a ++ b ++ c) = bxor (xorSum a) (bxor (xorSum b) (xorSum c)) := by
  rw [List.append_assoc, xorSum_append, xorSum_append]

/-- One element of a list replaced by a different value gives a different
list. -/
theorem set_ne_self {α : Type} (l : List α) (i : Nat) (b : α)
    (h : i < l.length) (hb : b ≠ l.get ⟨i, h⟩) : l.set i b ≠ l := by
  intro he
  apply hb
  have h2 : i < (l.set i b).length := by simpa using h
  have g1 : (l.set i b).get ⟨i, h2⟩ = b := by simp
  have g2 := List.getElem_of_eq he h2
  simp only [List.get_eq_getElem] at g1
  rw [g1] at g2
  simpa using g2

/-- Tag of the model cipher: the XOR checksum of key, nonce and message,
padded to the 16 tag bytes the blob layout reserves. -/
def macBytes (key iv ct : Bytes) : Bytes :=
  xorSum (key ++ iv ++ ct) :: List.replicate 15 (0 : Byte)

theorem macBytes_length (key iv ct : Bytes) : (macBytes key iv ct).length = 16 := by
  simp [macBytes]

theorem macBytes_ne_of_mid (key iv iv' ct : Bytes)
    (hs : xorSum iv' ≠ xorSum iv) : macBytes key iv' ct ≠ macBytes key iv ct := by
  simp only [macBytes, ne_eq, List.cons.injEq, and_true]
  intro hx
  rw [xorSum_append3, xorSum_append3] at hx
  exact hs (bxor_right_cancel (bxor_left_cancel hx))

theorem macBytes_ne_of_ct (key iv ct ct' : Bytes)
    (hs : xorSum ct' ≠ xorSum ct) : macBytes key iv ct' ≠ macBytes key iv ct := by
  simp only [macBytes, ne_eq, List.cons.injEq, and_true]
  intro hx
  rw [xorSum_append3, xorSum_append3] at hx
  exact hs (bxor_left_cancel (bxor_left_cancel hx))

/-- Concrete instance of the `AEAD` laws (identity cipher with an XOR
checksum tag); used only to instantiate theorems on concrete inputs. -/
def xorAEAD : AEAD where
  enc := fun k iv p => (p, macBytes k iv p)
  dec := fun k iv ct tag =>
    if iv.length = 16 ∧ tag = macBytes k iv ct then some ct else none
  enc_tag_len := fun k iv p => macBytes_length k iv p
  dec_enc := fun k iv p h => by simp [h]
  dec_iv_len := fun k iv ct tag h => by simp [h]
  dec_tag_len := fun k iv ct tag h => by
    have : tag ≠ macBytes k iv ct := by
      intro he; exact h (by rw [he]; exact macBytes_length k iv ct)
    simp [this]
  tamper_iv := fun k iv p i b h16 hi hb => by
    have hne : macBytes k iv p ≠ macBytes k (iv.set i b) p := fun he =>
      macBytes_ne_of_mid k iv (iv.set i b) p (xorSum_set_ne iv i b hi hb) he.symm
    simp [hne]
  tamper_tag := fun k iv p i b h16 hi hb => by
    have hne : (macBytes k iv p).set i b ≠ macBytes k iv p :=
      set_ne_self (macBytes k iv p) i b hi hb
    simp [hne]
  tamper_ct := fun k iv p i b h16 hi hb => by
    have hne : macBytes k iv p ≠ macBytes k iv (p.set i b) := fun he =>
      macBytes_ne_of_ct k iv p (p.set i b) (xorSum_set_ne p i b hi hb) he.symm
    simp [hne]

/-- C1 witness: the round-trip theorem evaluated on a concrete key,
nonce and plaintext under the concrete `xorAEAD` instance. -/
theorem decrypt_encrypt_roundtrip_witness :
    (List.replicate 16 (7 : Byte)).length = IV_LENGTH ∧
      decrypt xorAEAD [1, 2, 3] (encrypt xorAEAD [1, 2, 3]
        (List.replicate 16 (7 : Byte)) [104, 105]) = Except.ok [104, 105] :=
  ⟨by decide,
    decrypt_encrypt_roundtrip xorAEAD [1, 2, 3]
      (List.replicate 16 (7 : Byte)) [104, 105] (by decide)⟩

/-- C5.  Nonce freshness makes encoding non-deterministic: two calls of
`encrypt` on the same plaintext and key with distinct 16-byte nonces
produce two different ciphertext strings (the hex of the nonce is a
prefix of the blob). -/
theorem encrypt_nonce_distinct (A : AEAD) (key p n1 n2 : Bytes)
    (h1 : n1.length = IV_LENGTH) (h2 : n2.length = IV_LENGTH) (hne : n1 ≠ n2) :
    encrypt A key n1 p ≠ encrypt A key n2 p := by
  intro he
  apply hne
  have t1 := encrypt_take_iv A key n1 p h1
  have t2 := encrypt_take_iv A key n2 p h2
  rw [he, t2] at t1
  exact (hexEncode_injective t1).symm

/-- C5 witness: two concrete distinct nonces give distinct ciphertexts. -/
theorem encrypt_nonce_distinct_witness :
    (List.replicate 16 (0 : Byte)).length = IV_LENGTH ∧
      ((1 : Byte) :: List.replicate 15 (0 : Byte)).length = IV_LENGTH ∧
      List.replicate 16 (0 : Byte) ≠ (1 : Byte) :: List.replicate 15 (0 : Byte) ∧
      encrypt xorAEAD [9] (List.replicate 16 (0 : Byte)) [42] ≠
        encrypt xorAEAD [9] ((1 : Byte) :: List.replicate 15 (0 : Byte)) [42] :=
  ⟨by decide, by decide, by decide,
    encrypt_nonce_distinct xorAEAD [9] [42] (List.replicate 16 (0 : Byte))
      ((1 : Byte) :: List.replicate 15 (0 : Byte))
      (by decide) (by decide) (by decide)⟩

theorem decrypt_short_input (A : AEAD) (key : Bytes) (s : List Char)
    (hs : s.length < (IV_LENGTH + AUTH_TAG_LENGTH) * 2) :
    ∃ e, decrypt A key s = Except.error e := by
  rcases h1 : hexDecode (s.take (IV_LENGTH * 2)) with _ | iv
  · exact ⟨DecryptionError.badHex, by simp [decrypt, h1]⟩
  rcases h2 : hexDecode ((s.drop (IV_LENGTH * 2)).take (AUTH_TAG_LENGTH * 2)) with _ | tag
  · exact ⟨DecryptionError.badHex, by simp [decrypt, h1, h2]⟩
  rcases h3 : hexDecode (s.drop ((IV_LENGTH + AUTH_TAG_LENGTH) * 2)) with _ | ct
  · exact ⟨DecryptionError.badHex, by simp [decrypt, h1, h2, h3]⟩
  refine ⟨DecryptionError.authFailed, ?_⟩
  have hlen := hexDecode_some_length _ _ h2
  have hs64 : s.length < 64 := by simpa [IV_LENGTH, AUTH_TAG_LENGTH] using hs
  have htl : ((s.drop (IV_LENGTH * 2)).take (AUTH_TAG_LENGTH * 2)).length < 32 := by
    simp [List.length_take, List.length_drop, IV_LENGTH, AUTH_TAG_LENGTH]
    omega
  have htag : tag.length ≠ 16 := by omega
  have hd := A.dec_tag_len key iv ct tag htag
  simp [decrypt, h1, h2, h3, hd]

theorem decrypt_flip_iv (A : AEAD) (key iv p : Bytes) (i : Nat) (c : Char)
    (h16 : iv.length = IV_LENGTH) (hlt : i < IV_LENGTH * 2)
    (hi : i < (encrypt A key iv p).length)
    (hc : c ≠ (encrypt A key iv p).get ⟨i, hi⟩) :
    ∃ e, decrypt A key ((encrypt A key iv p).set i c) = Except.error e := by
  have l1 : (hexEncode iv).length = IV_LENGTH * 2 := by
    simp [hexEncode_length, h16, IV_LENGTH]
  have l2 : (hexEncode (A.enc key iv p).2).length = AUTH_TAG_LENGTH * 2 := by
    simp [hexEncode_length, A.enc_tag_len, AUTH_TAG_LENGTH]
  have hi1 : i < (hexEncode iv).length := by rw [l1]; exact hlt
  have hb12 : i < (hexEncode iv ++ hexEncode (A.enc key iv p).2).length := by
    simp [l1, l2, IV_LENGTH, AUTH_TAG_LENGTH]
    have : i < 32 := by simpa [IV_LENGTH] using hlt
    omega
  have hset : (encrypt A key iv p).set i c =
      ((hexEncode iv).set i c ++ hexEncode (A.enc key iv p).2) ++
        hexEncode (A.enc key iv p).1 := by
    rw [encrypt_eq, List.set_append_left i c hb12, List.set_append_left i c hi1]
  have ls : ((hexEncode iv).set i c).length = IV_LENGTH * 2 := by simp [l1]
  have p1 : ((encrypt A key iv p).set i c).take (IV_LENGTH * 2) =
      (hexEncode iv).set i c := by
    rw [hset, List.append_assoc, List.take_left' ls]
  have p2 : (((encrypt A key iv p).set i c).drop (IV_LENGTH * 2)).take
      (AUTH_TAG_LENGTH * 2) = hexEncode (A.enc key iv p).2 := by
    rw [hset, List.append_assoc, List.drop_left' ls, List.take_left' l2]
  have p3 : ((encrypt A key iv p).set i c).drop ((IV_LENGTH + AUTH_TAG_LENGTH) * 2) =
      hexEncode (A.enc key iv p).1 := by
    have l12 : ((hexEncode iv).set i c ++ hexEncode (A.enc key iv p).2).length =
        (IV_LENGTH + AUTH_TAG_LENGTH) * 2 := by
      simp [List.length_append, ls, l2, IV_LENGTH, AUTH_TAG_LENGTH]
    rw [hset, List.drop_left' l12]
  have hsg : (encrypt A key iv p).get ⟨i, hi⟩ = (hexEncode iv).get ⟨i, hi1⟩ := by
    simp only [List.get_eq_getElem]
    have e1 := List.getElem_of_eq (encrypt_eq A key iv p) hi
    rw [e1, List.getElem_append_left hb12, List.getElem_append_left hi1]
  have hgc : c ≠ (hexEncode iv).get ⟨i, hi1⟩ := by
    intro he
    exact hc (by rw [hsg]; exact he)
  have hj : i / 2 < iv.length := by
    rw [h16]
    show i / 2 < 16
    have : i < 32 := by simpa [IV_LENGTH] using hlt
    omega
  rcases hexDecode_set_hexEncode iv i c hi1 hj hgc with hnone | ⟨b, hb, hsome⟩
  · exact ⟨DecryptionError.badHex, by simp [decrypt, p1, hnone]⟩
  · refine ⟨DecryptionError.authFailed, ?_⟩
    have hd := A.tamper_iv key iv p (i / 2) b h16 hj hb
    simp [decrypt, p1, p2, p3, hsome, hexDecode_hexEncode, hd]

theorem decrypt_flip_tag (A : AEAD) (key iv p : Bytes) (i : Nat) (c : Char)
    (h16 : iv.length = IV_LENGTH) (hge : IV_LENGTH * 2 ≤ i)
    (hlt : i < (IV_LENGTH + AUTH_TAG_LENGTH) * 2)
    (hi : i < (encrypt A key iv p).length)
    (hc : c ≠ (encrypt A key iv p).get ⟨i, hi⟩) :
    ∃ e, decrypt A key ((encrypt A key iv p).set i c) = Except.error e := by
  have ltag := A.enc_tag_len key iv p
  have l1 : (hexEncode iv).length = IV_LENGTH * 2 := by
    simp [hexEncode_length, h16, IV_LENGTH]
  have l2 : (hexEncode (A.enc key iv p).2).length = AUTH_TAG_LENGTH * 2 := by
    simp [hexEncode_length, ltag, AUTH_TAG_LENGTH]
  have hi32 : i < 32 + 32 := by simpa [IV_LENGTH, AUTH_TAG_LENGTH] using hlt
  have hge32 : 32 ≤ i := by simpa [IV_LENGTH] using hge
  have hb12 : i < (hexEncode iv ++ hexEncode (A.enc key iv p).2).length := by
    simp [l1, l2, IV_LENGTH, AUTH_TAG_LENGTH]
    omega
  have hge1 : (hexEncode iv).length ≤ i := by rw [l1]; exact hge
  have hj2 : i - (hexEncode iv).length < (hexEncode (A.enc key iv p).2).length := by
    rw [l1, l2]
    simp [IV_LENGTH, AUTH_TAG_LENGTH]
    omega
  have hset : (encrypt A key iv p).set i c =
      (hexEncode iv ++ (hexEncode (A.enc key iv p).2).set
        (i - (hexEncode iv).length) c) ++ hexEncode (A.enc key iv p).1 := by
    rw [encrypt_eq, List.set_append_left i c hb12, List.set_append_right i c hge1]
  have ls : ((hexEncode (A.enc key iv p).2).set (i - (hexEncode iv).length) c).length =
      AUTH_TAG_LENGTH * 2 := by simp [l2]
  have p1 : ((encrypt A key iv p).set i c).take (IV_LENGTH * 2) = hexEncode iv := by
    rw [hset, List.append_assoc, List.take_left' l1]
  have p2 : (((encrypt A key iv p).set i c).drop (IV_LENGTH * 2)).take
      (AUTH_TAG_LENGTH * 2) =
      (hexEncode (A.enc key iv p).2).set (i - (hexEncode iv).length) c := by
    rw [hset, List.append_assoc, List.drop_left' l1, List.take_left' ls]
  have p3 : ((encrypt A key iv p).set i c).drop ((IV_LENGTH + AUTH_TAG_LENGTH) * 2) =
      hexEncode (A.enc key iv p).1 := by
    have l12 : (hexEncode iv ++ (hexEncode (A.enc key iv p).2).set
        (i - (hexEncode iv).length) c).length = (IV_LENGTH + AUTH_TAG_LENGTH) * 2 := by
      simp [List.length_append, l1, l2, IV_LENGTH, AUTH_TAG_LENGTH]
    rw [hset, List.drop_left' l12]
  have hsg : (encrypt A key iv p).get ⟨i, hi⟩ =
      (hexEncode (A.enc key iv p).2).get ⟨i - (hexEncode iv).length, hj2⟩ := by
    simp only [List.get_eq_getElem]
    have e1 := List.getElem_of_eq (encrypt_eq A key iv p) hi
    rw [e1, List.getElem_append_left hb12, List.getElem_append_right hge1]
  have hgc : c ≠ (hexEncode (A.enc key iv p).2).get ⟨i - (hexEncode iv).length, hj2⟩ := by
    intro he
    exact hc (by rw [hsg]; exact he)
  have hj : (i - (hexEncode iv).length) / 2 < (A.enc key iv p).2.length := by
    rw [ltag, l1]
    show (i - IV_LENGTH * 2) / 2 < 16
    have : i - 32 < 32 := by omega
    simp [IV_LENGTH]
    omega
  rcases hexDecode_set_hexEncode (A.enc key iv p).2 (i - (hexEncode iv).length) c
      hj2 hj hgc with hnone | ⟨b, hb, hsome⟩
  · exact ⟨DecryptionError.badHex, by simp [decrypt, p1, p2, hnone, hexDecode_hexEncode]⟩
  · refine ⟨DecryptionError.authFailed, ?_⟩
    have hd := A.tamper_tag key iv p ((i - (hexEncode iv).length) / 2) b h16 hj hb
    simp [decrypt, p1, p2, p3, hsome, hexDecode_hexEncode, hd]

theorem decrypt_flip_ct (A : AEAD) (key iv p : Bytes) (i : Nat) (c : Char)
    (h16 : iv.length = IV_LENGTH) (hge : (IV_LENGTH + AUTH_TAG_LENGTH) * 2 ≤ i)
    (hi : i < (encrypt A key iv p).length)
    (hc : c ≠ (encrypt A key iv p).get ⟨i, hi⟩) :
    ∃ e, decrypt A key ((encrypt A key iv p).set i c) = Except.error e := by
  have ltag := A.enc_tag_len key iv p
  have l1 : (hexEncode iv).length = IV_LENGTH * 2 := by
    simp [hexEncode_length, h16, IV_LENGTH]
  have l2 : (hexEncode (A.enc key iv p).2).length = AUTH_TAG_LENGTH * 2 := by
    simp [hexEncode_length, ltag, AUTH_TAG_LENGTH]
  have l3 : (hexEncode (A.enc key iv p).1).length = 2 * (A.enc key iv p).1.length :=
    hexEncode_length (A.enc key iv p).1
  have l12 : (hexEncode iv ++ hexEncode (A.enc key iv p).2).length =
      (IV_LENGTH + AUTH_TAG_LENGTH) * 2 := by
    simp [List.length_append, l1, l2, IV_LENGTH, AUTH_TAG_LENGTH]
  have hge12 : (hexEncode iv ++ hexEncode (A.enc key iv p).2).length ≤ i := by
    rw [l12]; exact hge
  have hge64 : 64 ≤ i := by simpa [IV_LENGTH, AUTH_TAG_LENGTH] using hge
  have hitot : i < 64 + 2 * (A.enc key iv p).1.length := by
    have hla := List.length_append (hexEncode iv ++ hexEncode (A.enc key iv p).2)
      (hexEncode (A.enc key iv p).1)
    have he := congrArg List.length (encrypt_eq A key iv p)
    rw [hla, l12, l3] at he
    have hi2 : i < (IV_LENGTH + AUTH_TAG_LENGTH) * 2 + 2 * (A.enc key iv p).1.length := by
      omega
    simpa [IV_LENGTH, AUTH_TAG_LENGTH] using hi2
  have hj3 : i - (IV_LENGTH + AUTH_TAG_LENGTH) * 2 <
      (hexEncode (A.enc key iv p).1).length := by
    rw [l3]
    simp only [IV_LENGTH, AUTH_TAG_LENGTH]
    omega
  have hset : (encrypt A key iv p).set i c =
      (hexEncode iv ++ hexEncode (A.enc key iv p).2) ++
        (hexEncode (A.enc key iv p).1).set
          (i - (IV_LENGTH + AUTH_TAG_LENGTH) * 2) c := by
    rw [encrypt_eq, List.set_append_right i c hge12, l12]
  have p1 : ((encrypt A key iv p).set i c).take (IV_LENGTH * 2) = hexEncode iv := by
    rw [hset, List.append_assoc, List.take_left' l1]
  have p2 : (((encrypt A key iv p).set i c).drop (IV_LENGTH * 2)).take
      (AUTH_TAG_LENGTH * 2) = hexEncode (A.enc key iv p).2 := by
    rw [hset, List.append_assoc, List.drop_left' l1, List.take_left' l2]
  have p3 : ((encrypt A key iv p).set i c).drop ((IV_LENGTH + AUTH_TAG_LENGTH) * 2) =
      (hexEncode (A.enc key iv p).1).set
        (i - (IV_LENGTH + AUTH_TAG_LENGTH) * 2) c := by
    rw [hset, List.drop_left' l12]
  have hsg : (encrypt A key iv p).get ⟨i, hi⟩ = (hexEncode (A.enc key iv p).1).get
      ⟨i - (IV_LENGTH + AUTH_TAG_LENGTH) * 2, hj3⟩ := by
    simp only [List.get_eq_getElem]
    have e1 := List.getElem_of_eq (encrypt_eq A key iv p) hi
    rw [e1, List.getElem_append_right hge12]
    simp [l12]
  have hgc : c ≠ (hexEncode (A.enc key iv p).1).get
      ⟨i - (IV_LENGTH + AUTH_TAG_LENGTH) * 2, hj3⟩ := by
    intro he
    exact hc (by rw [hsg]; exact he)
  have hj : (i - (IV_LENGTH + AUTH_TAG_LENGTH) * 2) / 2 <
      (A.enc key iv p).1.length := by
    simp only [IV_LENGTH, AUTH_TAG_LENGTH]
    omega
  rcases hexDecode_set_hexEncode (A.enc key iv p).1
      (i - (IV_LENGTH + AUTH_TAG_LENGTH) * 2) c
      hj3 hj hgc with hnone | ⟨b, hb, hsome⟩
  · exact ⟨DecryptionError.badHex,
      by simp [decrypt, p1, p2, p3, hnone, hexDecode_hexEncode]⟩
  · refine ⟨DecryptionError.authFailed, ?_⟩
    have hd := A.tamper_ct key iv p
      ((i - (IV_LENGTH + AUTH_TAG_LENGTH) * 2) / 2) b h16 hj hb
    simp [decrypt, p1, p2, p3, hsome, hexDecode_hexEncode, hd]

/-- C4.  Decode is all-or-nothing: an input shorter than the 64-character
nonce-plus-tag prefix always fails with a `DecryptionError`, and so does
any string obtained from a valid ciphertext by changing a single
character of the hex blob, whichever of the nonce, tag or ciphertext
regions the change lands in; no plaintext is ever returned on failure. -/
theorem decrypt_all_or_nothing (A : AEAD) (key : Bytes) :
    (∀ s : List Char, s.length < (IV_LENGTH + AUTH_TAG_LENGTH) * 2 →
      ∃ e, decrypt A key s = Except.error e) ∧
    (∀ (iv p : Bytes) (i : Nat) (c : Char), iv.length = IV_LENGTH →
      ∀ hi : i < (encrypt A key iv p).length,
      c ≠ (encrypt A key iv p).get ⟨i, hi⟩ →
      ∃ e, decrypt A key ((encrypt A key iv p).set i c) = Except.error e) := by
  constructor
  · exact fun s hs => decrypt_short_input A key s hs
  · intro iv p i c h16 hi hc
    rcases Nat.lt_or_ge i (IV_LENGTH * 2) with h | h
    · exact decrypt_flip_iv A key iv p i c h16 h hi hc
    rcases Nat.lt_or_ge i ((IV_LENGTH + AUTH_TAG_LENGTH) * 2) with h2 | h2
    · exact decrypt_flip_tag A key iv p i c h16 h h2 hi hc
    · exact decrypt_flip_ct A key iv p i c h16 h2 hi hc

/-- C4 witness: a 1-character input fails, and flipping the first
character of a concrete valid ciphertext fails, under the concrete
`xorAEAD` instance. -/
theorem decrypt_all_or_nothing_witness :
    (∃ e, decrypt xorAEAD [3] ['a'] = Except.error e) ∧
      ∃ e, decrypt xorAEAD [3]
        ((encrypt xorAEAD [3] (List.replicate 16 (0 : Byte)) [104]).set 0 'z') =
          Except.error e :=
  ⟨(decrypt_all_or_nothing xorAEAD [3]).1 ['a'] (by decide),
    (decrypt_all_or_nothing xorAEAD [3]).2 (List.replicate 16 (0 : Byte)) [104] 0 'z'
      (by decide) (by decide) (by decide)⟩

/-! ### Codec initialization: the ENCRYPTION_KEY guard -/

/-- Character of a 6-bit value in the standard base64 alphabet. -/
def base64Char (n : Nat) : Char :=
  if n < 26 then Char.ofNat (65 + n)
  else if n < 52 then Char.ofNat (97 + (n - 26))
  else if n < 62 then Char.ofNat (48 + (n - 52))
  else if n = 62 then '+' else '/'

/-- Base64 value of a character, if it is in the standard alphabet. -/
def base64Val (c : Char) : Option (Fin 64) :=
  (List.finRange 64).find? (fun d => base64Char d.val == c)

/-- Bytes of a stream of 6-bit groups: 4 groups give 3 bytes, a trailing
3 give 2, a trailing 2 give 1, a trailing single group is dropped. -/
def base64DecodeCore : List (Fin 64) → Bytes
  | a :: b :: c :: d :: rest =>
    ⟨a.val * 4 + b.val / 16, by omega⟩ ::
      ⟨(b.val % 16) * 16 + c.val / 4, by omega⟩ ::
      ⟨(c.val % 4) * 64 + d.val, by omega⟩ :: base64DecodeCore rest
  | [a, b] => [⟨a.val * 4 + b.val / 16, by omega⟩]
  | [a, b, c] =>
    [⟨a.val * 4 + b.val / 16, by omega⟩, ⟨(b.val % 16) * 16 + c.val / 4, by omega⟩]
  | _ => []

/-- Modelled from the spec: the key is read via
`Buffer.from(process.env.ENCRYPTION_KEY, 'base64')` in Node, which is
outside the repository.  Per the spec the configured value is a base64
encoding of the key; decoding is lenient in the Node style, skipping
characters outside the alphabet (such as the padding) and dropping a
trailing 6-bit remainder, and never fails. -/
def base64Decode (s : List Char) : Bytes :=
  base64DecodeCore (s.filterMap base64Val)

/-- The module-scope guard of the exchange-token and get-transactions
routes: decode `ENCRYPTION_KEY` from base64 and throw unless the result
is exactly 32 bytes. -/
def loadEncryptionKey (s : List Char) : Except String Bytes :=
  let encryptionKey := base64Decode s
  if encryptionKey.length ≠ 32 then
    Except.error "ENCRYPTION_KEY must be 32 bytes (base64-encoded)"
  else Except.ok encryptionKey

/-- C6.  Codec initialization fails if and only if the configured key,
after base64 decoding, is not exactly 32 bytes; with a 32-byte decoded
key it succeeds and yields that key. -/
theorem encryption_key_guard (s : List Char) :
    (loadEncryptionKey s = Except.ok (base64Decode s) ↔
      (base64Decode s).length = 32) ∧
    (loadEncryptionKey s =
        Except.error "ENCRYPTION_KEY must be 32 bytes (base64-encoded)" ↔
      (base64Decode s).length ≠ 32) := by
  unfold loadEncryptionKey
  by_cases h : (base64Decode s).length = 32 <;> simp [h]

/-- C6 witness: a 43-character base64 value decodes to 32 bytes and is
accepted; a 1-character value decodes to 0 bytes and is rejected. -/
theorem encryption_key_guard_witness :
    loadEncryptionKey (List.replicate 43 'A' ++ ['=']) =
        Except.ok (base64Decode (List.replicate 43 'A' ++ ['='])) ∧
      loadEncryptionKey ['A'] =
        Except.error "ENCRYPTION_KEY must be 32 bytes (base64-encoded)" :=
  ⟨(encryption_key_guard (List.replicate 43 'A' ++ ['='])).1.mpr (by decide),
    (encryption_key_guard ['A']).2.mpr (by decide)⟩

/-! ### The credential vault pipeline

Rows of the `plaid_items` table and the route handlers operating on it.
The Supabase store and the Plaid client are external collaborators: the
store is modelled as a list of rows with the query semantics of the
handlers (`eq`/`order`/`limit`/`upsert onConflict`), the Plaid exchange
and transactions operations as function parameters.  Each handler is
modelled from its first authenticated step on; session checking is done
by the identity provider and is out of scope. -/

/-- A row of the `plaid_items` table: owner, Plaid item id, encrypted
access token, and the row timestamp used by `order('created_at')`. -/
structure PlaidItemRow where
  user_id : String
  item_id : String
  access_token : List Char
  created_at : Nat
deriving DecidableEq

/-- Result of the Plaid `itemPublicTokenExchange` call. -/
structure ExchangeResult where
  access_token : Bytes
  item_id : String
deriving DecidableEq

/-- A Plaid SDK error surfaced by a provider call. -/
structure PlaidError where
  error_code : String
  error_message : String
  status : Nat
deriving DecidableEq

/-- Response shape of the exchange-token route. -/
structure ExchangeResponse where
  status : Nat
  success : Bool
  item_id : Option String
  message : String
deriving DecidableEq

/-- The store write of the exchange-token route:
`.upsert(row, onConflict 'item_id')` — replace the owner and the
encrypted credential of the row with this `item_id` if one exists,
insert a fresh row otherwise.  `created_at` is set by the database on
insert and kept on conflict. -/
def upsertPlaidItem (store : List PlaidItemRow) (user_id item_id : String)
    (access_token : List Char) (now : Nat) : List PlaidItemRow :=
  if store.any (fun r => r.item_id == item_id) then
    store.map (fun r =>
      if r.item_id == item_id then
        { r with user_id := user_id, access_token := access_token }
      else r)
  else
    store ++ [{ user_id := user_id, item_id := item_id,
                access_token := access_token, created_at := now }]

/-- POST /api/plaid/exchange-token, from the authenticated step on:
validate the body, exchange the public token with Plaid, encrypt the
access token, upsert on `item_id`, return the item id. -/
def exchangeTokenPOST (A : AEAD) (key : Bytes) (store : List PlaidItemRow)
    (userId : String) (public_token : Option String)
    (exchange : String → Except PlaidError ExchangeResult)
    (iv : Bytes) (now : Nat) : List PlaidItemRow × ExchangeResponse :=
  match public_token with
  | none => (store, { status := 400, success := false, item_id := none,
                      message := "Missing public_token" })
  | some pt =>
    match exchange pt with
    | Except.error e => (store, { status := e.status, success := false,
                                  item_id := none, message := "Plaid error" })
    | Except.ok r =>
      let encrypted := encrypt A key iv r.access_token
      (upsertPlaidItem store userId r.item_id encrypted now,
        { status := 200, success := true, item_id := some r.item_id,
          message := "Stored successfully" })

/-- The `item_id` column carries a unique constraint in the store. -/
def UniqueItemIds (store : List PlaidItemRow) : Prop :=
  store.Pairwise (fun a b => a.item_id ≠ b.item_id)

theorem filter_map_upsert_nil (store : List PlaidItemRow) (u tid : String)
    (tok : List Char) (hnone : ∀ r ∈ store, r.item_id ≠ tid) :
    (store.map (fun r =>
      if r.item_id == tid then { r with user_id := u, access_token := tok }
      else r)).filter (fun r => r.item_id == tid) = [] := by
  induction store with
  | nil => rfl
  | cons r rest ih =>
    have hr : r.item_id ≠ tid := hnone r (by simp)
    simp only [List.map_cons]
    rw [if_neg (by simpa using hr)]
    rw [List.filter_cons]
    rw [if_neg (by simpa using hr)]
    exact ih (fun x hx => hnone x (by simp [hx]))

theorem filter_map_upsert_one (store : List PlaidItemRow) (u tid : String)
    (tok : List Char) (hu : UniqueItemIds store)
    (hany : store.any (fun r => r.item_id == tid) = true) :
    ∃ ca, ((store.map (fun r =>
      if r.item_id == tid then { r with user_id := u, access_token := tok }
      else r)).filter (fun r => r.item_id == tid)) =
      [{ user_id := u, item_id := tid, access_token := tok, created_at := ca }] := by
  induction store with
  | nil => simp at hany
  | cons r rest ih =>
    by_cases hr : r.item_id = tid
    · refine ⟨r.created_at, ?_⟩
      have hrb : (r.item_id == tid) = true := by simpa using hr
      have hrest : ∀ x ∈ rest, x.item_id ≠ tid := by
        intro x hx
        have hne := (List.pairwise_cons.mp hu).1 x hx
        rw [hr] at hne
        exact fun he => hne he.symm
      rw [List.map_cons, if_pos hrb, List.filter_cons,
        if_pos (show (({ r with user_id := u, access_token := tok } :
          PlaidItemRow).item_id == tid) = true by simpa using hr),
        filter_map_upsert_nil rest u tid tok hrest]
      simp [hr]
    · have hu2 : UniqueItemIds rest := (List.pairwise_cons.mp hu).2
      have hrb : ¬((r.item_id == tid) = true) := by simpa using hr
      have hany2 : rest.any (fun x => x.item_id == tid) = true := by
        rcases List.any_eq_true.mp hany with ⟨x, hx, hpx⟩
        rcases List.mem_cons.mp hx with he | hm
        · exact absurd (by simpa using hpx) (by rw [he]; exact hr)
        · exact List.any_eq_true.mpr ⟨x, hm, hpx⟩
      rcases ih hu2 hany2 with ⟨ca, hca⟩
      refine ⟨ca, ?_⟩
      rw [List.map_cons, if_neg hrb, List.filter_cons, if_neg hrb]
      exact hca

theorem filter_upsert_eq (store : List PlaidItemRow) (u tid : String)
    (tok : List Char) (now : Nat) (hu : UniqueItemIds store) :
    ∃ ca, (upsertPlaidItem store u tid tok now).filter
      (fun r => r.item_id == tid) =
      [{ user_id := u, item_id := tid, access_token := tok, created_at := ca }] := by
  unfold upsertPlaidItem
  cases hany : store.any (fun r => r.item_id == tid) with
  | true =>
    simpa using filter_map_upsert_one store u tid tok hu hany
  | false =>
    refine ⟨now, ?_⟩
    have h1 : store.filter (fun r => r.item_id == tid) = [] := by
      apply List.filter_eq_nil_iff.mpr
      intro r hr hpr
      exact (List.any_eq_false.mp hany) r hr hpr
    simp [List.filter_append, h1]

theorem upsert_preserves_unique (store : List PlaidItemRow) (u tid : String)
    (tok : List Char) (now : Nat) (hu : UniqueItemIds store) :
    UniqueItemIds (upsertPlaidItem store u tid tok now) := by
  unfold upsertPlaidItem
  cases hany : store.any (fun r => r.item_id == tid) with
  | true =>
    simp only [if_pos]
    refine List.Pairwise.map _ ?_ hu
    intro a b hab
    by_cases ha : a.item_id = tid <;> by_cases hb : b.item_id = tid <;>
      simp [ha, hb] at hab ⊢ <;> simp [ha, hb, hab]
  | false =>
    rw [if_neg (by simp)]
    unfold UniqueItemIds
    rw [List.pairwise_append]
    refine ⟨hu, by simp, ?_⟩
    intro a ha b hb
    rw [List.mem_singleton.mp hb]
    have hne : a.item_id ≠ tid := by
      simpa using (List.any_eq_false.mp hany) a ha
    simpa using hne

/-- C3.  The store write of the exchange route is an upsert keyed by
`item_id`: after two exchange-and-store calls whose exchanges resolve to
the same `item_id`, exactly one row with that id exists, owned by the
second caller and holding the credential encrypted by the second call. -/
theorem exchange_upsert_idempotent (A : AEAD) (key : Bytes)
    (store : List PlaidItemRow) (u1 u2 pt1 pt2 : String)
    (ex1 ex2 : String → Except PlaidError ExchangeResult)
    (tok1 tok2 : Bytes) (tid : String) (iv1 iv2 : Bytes) (n1 n2 : Nat)
    (hu : UniqueItemIds store)
    (h1 : ex1 pt1 = Except.ok { access_token := tok1, item_id := tid })
    (h2 : ex2 pt2 = Except.ok { access_token := tok2, item_id := tid }) :
    (((exchangeTokenPOST A key
        (exchangeTokenPOST A key store u1 (some pt1) ex1 iv1 n1).1
        u2 (some pt2) ex2 iv2 n2).1).filter
          (fun r => r.item_id == tid)).length = 1 ∧
    ∀ r ∈ (exchangeTokenPOST A key
        (exchangeTokenPOST A key store u1 (some pt1) ex1 iv1 n1).1
        u2 (some pt2) ex2 iv2 n2).1, r.item_id = tid →
      r.user_id = u2 ∧ r.access_token = encrypt A key iv2 tok2 := by
  have hs1 : (exchangeTokenPOST A key store u1 (some pt1) ex1 iv1 n1).1 =
      upsertPlaidItem store u1 tid (encrypt A key iv1 tok1) n1 := by
    simp [exchangeTokenPOST, h1]
  have hu1 : UniqueItemIds (exchangeTokenPOST A key store u1 (some pt1) ex1 iv1 n1).1 := by
    rw [hs1]
    exact upsert_preserves_unique store u1 tid (encrypt A key iv1 tok1) n1 hu
  have hs2 : (exchangeTokenPOST A key
      (exchangeTokenPOST A key store u1 (some pt1) ex1 iv1 n1).1
      u2 (some pt2) ex2 iv2 n2).1 =
      upsertPlaidItem (exchangeTokenPOST A key store u1 (some pt1) ex1 iv1 n1).1
        u2 tid (encrypt A key iv2 tok2) n2 := by
    simp [exchangeTokenPOST, h2]
  rcases filter_upsert_eq (exchangeTokenPOST A key store u1 (some pt1) ex1 iv1 n1).1
      u2 tid (encrypt A key iv2 tok2) n2 hu1 with ⟨ca, hca⟩
  rw [hs2]
  constructor
  · rw [hca]
    rfl
  · intro r hr hrid
    have hrmem : r ∈ (upsertPlaidItem
        (exchangeTokenPOST A key store u1 (some pt1) ex1 iv1 n1).1
        u2 tid (encrypt A key iv2 tok2) n2).filter (fun r => r.item_id == tid) := by
      rw [List.mem_filter]
      exact ⟨hr, by simpa using hrid⟩
    rw [hca] at hrmem
    simp at hrmem
    rw [hrmem]
    exact ⟨rfl, rfl⟩

/-- C3 witness: two concrete calls resolving to the same item id leave
one row, owned by the second caller with the second credential. -/
theorem exchange_upsert_idempotent_witness :
    UniqueItemIds ([] : List PlaidItemRow) ∧
    (((exchangeTokenPOST xorAEAD [2]
        (exchangeTokenPOST xorAEAD [2] [] "u1" (some "pt1")
          (fun _ => Except.ok { access_token := [7], item_id := "item-1" })
          (List.replicate 16 (0 : Byte)) 0).1
        "u2" (some "pt2")
        (fun _ => Except.ok { access_token := [8], item_id := "item-1" })
        (List.replicate 16 (1 : Byte)) 1).1).filter
          (fun r => r.item_id == "item-1")).length = 1 :=
  ⟨by simp [UniqueItemIds],
    (exchange_upsert_idempotent xorAEAD [2] [] "u1" "u2" "pt1" "pt2"
      (fun _ => Except.ok { access_token := [7], item_id := "item-1" })
      (fun _ => Except.ok { access_token := [8], item_id := "item-1" })
      [7] [8] "item-1" (List.replicate 16 (0 : Byte)) (List.replicate 16 (1 : Byte))
      0 1 (by simp [UniqueItemIds]) rfl rfl).1⟩

/-- A Plaid transaction, as far as the handlers inspect it: the `date`
field used by the view sort (encoded as a day number) and an opaque
rest. -/
structure Tx where
  date : Nat
  name : String
deriving DecidableEq

/-- A Plaid account record; opaque to the handlers. -/
structure Account where
  account_id : String
deriving DecidableEq

/-- Plaid item metadata; opaque to the handlers. -/
structure ItemMeta where
  item_id : String
deriving DecidableEq

/-- Response of the Plaid `transactionsGet` call. -/
structure ProviderResponse where
  transactions : List Tx
  accounts : List Account
  item : ItemMeta
deriving DecidableEq

/-- The `TransactionsGetRequest` the handler builds; the caller of the
route supplies none of these fields - the body carries only `item_id`. -/
structure TransactionsRequest where
  access_token : Bytes
  start_date : Nat
  end_date : Nat
  count : Nat
  offset : Nat
deriving DecidableEq

/-- Response shape of the get-transactions POST route. -/
structure FetchResponse where
  status : Nat
  success : Bool
  message : String
  transactions : List Tx := []
  accounts : List Account := []
  item : Option ItemMeta := none
deriving DecidableEq

/-- Result of one run of the get-transactions POST route, with an audit
trace: every plaintext credential the run decrypted and every request it
sent to the provider. -/
structure FetchTrace where
  response : FetchResponse
  decrypted : List Bytes
  requests : List TransactionsRequest
deriving DecidableEq

/-- The ownership lookup of the get-transactions route:
`.eq('item_id', item_id).eq('user_id', userId).single()` over the
`plaid_items` table - a row must match both the item id and the
requesting user. -/
def findPlaidItem (store : List PlaidItemRow) (item_id user_id : String) :
    Option PlaidItemRow :=
  store.find? (fun r => r.item_id == item_id && r.user_id == user_id)

/-- The 404 response of the get-transactions route when the lookup
misses (row absent or owned by another user). -/
def notFoundResponse : FetchResponse :=
  { status := 404, success := false,
    message := "Plaid item not found for this user." }

/-- The fixed message each decryption failure is rendered with; one
string per failure kind, carrying no key or ciphertext material. -/
def renderDecryptionError : DecryptionError → String
  | DecryptionError.badHex => "Decryption failed: bad ciphertext encoding"
  | DecryptionError.authFailed =>
    "Decryption failed: Unsupported state or unable to authenticate data"

/-- POST /api/plaid/get-transactions, from the authenticated step on:
read `item_id` from the body, look the row up by item id and owner,
decrypt the stored credential, fetch a fixed 30-day window of at most
500 transactions at offset 0, and return the provider response. -/
def getTransactionsPOST (A : AEAD) (key : Bytes) (store : List PlaidItemRow)
    (userId : String) (item_id : Option String) (today : Nat)
    (provider : TransactionsRequest → Except PlaidError ProviderResponse) :
    FetchTrace :=
  match item_id with
  | none =>
    ⟨{ status := 400, success := false, message := "Missing item_id" }, [], []⟩
  | some iid =>
    match findPlaidItem store iid userId with
    | none => ⟨notFoundResponse, [], []⟩
    | some row =>
      match decrypt A key row.access_token with
      | Except.error e =>
        ⟨{ status := 500, success := false,
           message := "Failed to process access token: " ++
             renderDecryptionError e }, [], []⟩
      | Except.ok accessToken =>
        let req : TransactionsRequest :=
          { access_token := accessToken, start_date := today - 30,
            end_date := today, count := 500, offset := 0 }
        match provider req with
        | Except.error pe =>
          ⟨{ status := pe.status, success := false,
             message := "Plaid API error" }, [accessToken], [req]⟩
        | Except.ok resp =>
          ⟨{ status := 200, success := true, message := "",
             transactions := resp.transactions, accounts := resp.accounts,
             item := some resp.item }, [accessToken], [req]⟩

/-- C2.  Ownership isolation: when every stored row with the requested
item id belongs to someone other than the requesting user - in
particular when the row exists but is owned by another user, and also
when no such row exists at all - the fetch returns the 404 not-found
response, decrypts no credential and calls the provider with nothing;
the run is literally equal to the run on an empty store. -/
theorem fetch_ownership_isolation (A : AEAD) (key : Bytes)
    (store : List PlaidItemRow) (userA iid : String) (today : Nat)
    (provider : TransactionsRequest → Except PlaidError ProviderResponse)
    (h : ∀ r ∈ store, r.item_id = iid → r.user_id ≠ userA) :
    getTransactionsPOST A key store userA (some iid) today provider =
      ⟨notFoundResponse, [], []⟩ ∧
    getTransactionsPOST A key store userA (some iid) today provider =
      getTransactionsPOST A key [] userA (some iid) today provider := by
  have hf : findPlaidItem store iid userA = none := by
    unfold findPlaidItem
    rw [List.find?_eq_none]
    intro r hr
    intro hpr
    rcases Bool.and_eq_true_iff.mp hpr with ⟨h1, h2⟩
    exact h r hr (by simpa using h1) (by simpa using h2)
  have h1 : getTransactionsPOST A key store userA (some iid) today provider =
      ⟨notFoundResponse, [], []⟩ := by
    simp [getTransactionsPOST, hf]
  have h2 : getTransactionsPOST A key [] userA (some iid) today provider =
      ⟨notFoundResponse, [], []⟩ := by
    simp [getTransactionsPOST, findPlaidItem]
  exact ⟨h1, h1.trans h2.symm⟩

/-- Fixture row for witnesses: `item-1` owned by `userB`, with a stored
blob that is a single character. -/
def wRowB : PlaidItemRow :=
  { user_id := "userB", item_id := "item-1", access_token := ['a'],
    created_at := 0 }

/-- Fixture row for witnesses: `item-1` owned by `u1`, same blob. -/
def wRowU1 : PlaidItemRow :=
  { user_id := "u1", item_id := "item-1", access_token := ['a'],
    created_at := 0 }

/-- Fixture row for witnesses: `item-1` owned by `u1`, holding a valid
encryption of the one-byte credential `[7]`. -/
def wRowTok : PlaidItemRow :=
  { user_id := "u1", item_id := "item-1",
    access_token := encrypt xorAEAD [1] (List.replicate 16 (0 : Byte)) [7],
    created_at := 0 }

/-- Fixture provider that always fails. -/
def wErrProvider : TransactionsRequest → Except PlaidError ProviderResponse :=
  fun _ => Except.error { error_code := "", error_message := "", status := 500 }

/-- Fixture provider that always answers with an empty response. -/
def wOkProvider : TransactionsRequest → Except PlaidError ProviderResponse :=
  fun _ => Except.ok { transactions := [], accounts := [],
                       item := { item_id := "item-1" } }

/-- Fixture request: the window a run with `today = 100` builds. -/
def wReq : TransactionsRequest :=
  { access_token := [7], start_date := 70, end_date := 100, count := 500,
    offset := 0 }

/-- C2 witness: a concrete store holding `item-1` owned by `userB`,
fetched by `userA`. -/
theorem fetch_ownership_isolation_witness :
    (∀ r ∈ [wRowB], r.item_id = "item-1" → r.user_id ≠ "userA") ∧
    getTransactionsPOST xorAEAD [1] [wRowB] "userA" (some "item-1") 100
      wErrProvider = ⟨notFoundResponse, [], []⟩ :=
  ⟨by decide,
    (fetch_ownership_isolation xorAEAD [1] [wRowB] "userA" "item-1" 100
      wErrProvider (by decide)).1⟩

/-- C7.  When decrypting the stored credential fails, the request fails
with status 500, a message fixed by the failure kind alone - one of two
constant strings, carrying no key, ciphertext or stack material - and
the response is distinct from the not-found response; nothing is sent to
the provider. -/
theorem decrypt_failure_user_safe (A : AEAD) (key : Bytes)
    (store : List PlaidItemRow) (userId iid : String) (today : Nat)
    (provider : TransactionsRequest → Except PlaidError ProviderResponse)
    (row : PlaidItemRow) (e : DecryptionError)
    (hfind : findPlaidItem store iid userId = some row)
    (hdec : decrypt A key row.access_token = Except.error e) :
    (getTransactionsPOST A key store userId (some iid) today provider).response.status
        = 500 ∧
    (getTransactionsPOST A key store userId (some iid) today provider).response.success
        = false ∧
    ((getTransactionsPOST A key store userId (some iid) today provider).response.message
        = "Failed to process access token: Decryption failed: bad ciphertext encoding" ∨
      (getTransactionsPOST A key store userId (some iid) today provider).response.message
        = "Failed to process access token: Decryption failed: Unsupported state or unable to authenticate data") ∧
    (getTransactionsPOST A key store userId (some iid) today provider).response
        ≠ notFoundResponse ∧
    (getTransactionsPOST A key store userId (some iid) today provider).decrypted = [] ∧
    (getTransactionsPOST A key store userId (some iid) today provider).requests = [] := by
  cases e <;>
    simp [getTransactionsPOST, hfind, hdec, renderDecryptionError, notFoundResponse]

/-- C7 witness: a row whose stored blob is a single character, which
always fails to decode. -/
theorem decrypt_failure_user_safe_witness :
    findPlaidItem [wRowU1] "item-1" "u1" = some wRowU1 ∧
    decrypt xorAEAD [1] wRowU1.access_token =
      Except.error DecryptionError.badHex ∧
    (getTransactionsPOST xorAEAD [1] [wRowU1] "u1" (some "item-1") 100
      wErrProvider).response.status = 500 :=
  ⟨by decide, rfl,
    (decrypt_failure_user_safe xorAEAD [1] [wRowU1] "u1" "item-1" 100
      wErrProvider wRowU1 DecryptionError.badHex (by decide) rfl).1⟩

/-- C10.  Every transaction request the fetch handler sends asks for the
fixed window from 30 days before `today` to `today`, with `count = 500`
and `offset = 0`; the route body supplies only `item_id`, so the caller
controls none of these fields. -/
theorem transactions_window_fixed (A : AEAD) (key : Bytes)
    (store : List PlaidItemRow) (userId : String) (item_id : Option String)
    (today : Nat)
    (provider : TransactionsRequest → Except PlaidError ProviderResponse) :
    ∀ req ∈ (getTransactionsPOST A key store userId item_id today provider).requests,
      req.start_date = today - 30 ∧ req.end_date = today ∧
        req.count = 500 ∧ req.offset = 0 := by
  cases item_id with
  | none => simp [getTransactionsPOST]
  | some iid =>
    cases hf : findPlaidItem store iid userId with
    | none => simp [getTransactionsPOST, hf]
    | some row =>
      cases hd : decrypt A key row.access_token with
      | error e => simp [getTransactionsPOST, hf, hd]
      | ok tok =>
        cases hp : provider { access_token := tok, start_date := today - 30,
                              end_date := today, count := 500, offset := 0 } with
        | error pe => simp [getTransactionsPOST, hf, hd, hp]
        | ok resp => simp [getTransactionsPOST, hf, hd, hp]

/-- C10 witness: a run that reaches the provider sends the window 70-100
with count 500 and offset 0. -/
theorem transactions_window_fixed_witness :
    wReq ∈ (getTransactionsPOST xorAEAD [1] [wRowTok] "u1" (some "item-1") 100
      wOkProvider).requests ∧
    wReq.start_date = 100 - 30 ∧ wReq.end_date = 100 ∧ wReq.count = 500 ∧
    wReq.offset = 0 :=
  ⟨by decide,
    (transactions_window_fixed xorAEAD [1] [wRowTok] "u1" (some "item-1") 100
      wOkProvider wReq (by decide))⟩

/-! ### The view GET handlers: latest-item lookup and the sorted
transaction list -/

/-- One step of the stable descending-by-date sort the view handler
applies with `.sort((a, b) => dateB - dateA)`. -/
def insertByDateDesc (t : Tx) : List Tx → List Tx
  | [] => [t]
  | u :: us =>
    if u.date < t.date then t :: u :: us else u :: insertByDateDesc t us

/-- The view sort: transactions ordered by date, newest first, stable on
equal dates (as the JavaScript array sort is). -/
def sortNewestFirst : List Tx → List Tx
  | [] => []
  | t :: ts => insertByDateDesc t (sortNewestFirst ts)

theorem insertByDateDesc_perm (t : Tx) (l : List Tx) :
    (insertByDateDesc t l).Perm (t :: l) := by
  induction l with
  | nil => exact List.Perm.refl _
  | cons u us ih =>
    simp only [insertByDateDesc]
    by_cases hlt : u.date < t.date
    · rw [if_pos hlt]
    · rw [if_neg hlt]
      exact (ih.cons u).trans (List.Perm.swap t u us)

theorem sortNewestFirst_perm (ts : List Tx) : (sortNewestFirst ts).Perm ts := by
  induction ts with
  | nil => exact List.Perm.refl _
  | cons t ts ih =>
    simp only [sortNewestFirst]
    exact (insertByDateDesc_perm t (sortNewestFirst ts)).trans (ih.cons t)

theorem sorted_insertByDateDesc (t : Tx) (l : List Tx)
    (hl : l.Pairwise (fun a b => b.date ≤ a.date)) :
    (insertByDateDesc t l).Pairwise (fun a b => b.date ≤ a.date) := by
  induction l with
  | nil => simp [insertByDateDesc]
  | cons u us ih =>
    rcases List.pairwise_cons.mp hl with ⟨hu, hus⟩
    simp only [insertByDateDesc]
    by_cases hlt : u.date < t.date
    · rw [if_pos hlt]
      apply List.pairwise_cons.mpr
      refine ⟨?_, hl⟩
      intro x hx
      rcases List.mem_cons.mp hx with he | hm
      · rw [he]; omega
      · have := hu x hm; omega
    · rw [if_neg hlt]
      apply List.pairwise_cons.mpr
      refine ⟨?_, ih hus⟩
      intro x hx
      have hx2 := (insertByDateDesc_perm t us).mem_iff.mp hx
      rcases List.mem_cons.mp hx2 with he | hm
      · rw [he]; omega
      · exact hu x hm

theorem sorted_sortNewestFirst (ts : List Tx) :
    (sortNewestFirst ts).Pairwise (fun a b => b.date ≤ a.date) := by
  induction ts with
  | nil => simp [sortNewestFirst]
  | cons t ts ih => exact sorted_insertByDateDesc t _ ih

/-- One step of ordering rows by `created_at`, newest first. -/
def insertRowByCreatedDesc (t : PlaidItemRow) :
    List PlaidItemRow → List PlaidItemRow
  | [] => [t]
  | u :: us =>
    if u.created_at < t.created_at then t :: u :: us
    else u :: insertRowByCreatedDesc t us

/-- Rows ordered by `created_at`, newest first. -/
def sortRowsNewestFirst : List PlaidItemRow → List PlaidItemRow
  | [] => []
  | r :: rs => insertRowByCreatedDesc r (sortRowsNewestFirst rs)

/-- The latest-item query shared by the view handlers:
`.eq('user_id', userId).order('created_at', descending).limit(1)`. -/
def latestPlaidItem (store : List PlaidItemRow) (userId : String) :
    Option PlaidItemRow :=
  (sortRowsNewestFirst (store.filter (fun r => r.user_id == userId))).head?

/-- GET of the get-transactions route, from the authenticated step on:
look up the latest item of the user, fetch its transactions
(`fetchPlaidTransactions` lives in src/lib/plaid/server, outside the
provided sources, so its result is an input here), sort them by date
newest first, and return them. -/
def getTransactionsViewGET (store : List PlaidItemRow) (userId : String)
    (fetched : Option (List Tx)) : FetchResponse :=
  match latestPlaidItem store userId with
  | none =>
    { status := 404, success := false, message := "No Plaid account connected" }
  | some _ =>
    match fetched with
    | none =>
      { status := 404, success := false, message := "No transactions found" }
    | some txs =>
      { status := 200, success := true, message := "",
        transactions := sortNewestFirst txs }

/-- Response shape of GET /api/user/plaid-items. -/
structure PlaidItemsResponse where
  status : Nat
  success : Bool
  item_id : Option String
deriving DecidableEq

/-- GET /api/user/plaid-items, from the authenticated step on: the
latest item id of the user, or null, always with HTTP 200 and
success true (`itemData?.[0]?.item_id ?? null`). -/
def plaidItemsGET (store : List PlaidItemRow) (userId : String) :
    PlaidItemsResponse :=
  { status := 200, success := true,
    item_id := (latestPlaidItem store userId).map (fun r => r.item_id) }

/-- C9.  A user with no stored row gets HTTP 200 with success true and a
null item id from the latest-item endpoint - absence of a bank
connection is a successful empty result, not a 404. -/
theorem plaid_items_empty_success (store : List PlaidItemRow) (userId : String)
    (h : ∀ r ∈ store, r.user_id ≠ userId) :
    plaidItemsGET store userId =
      { status := 200, success := true, item_id := none } := by
  have hfil : store.filter (fun r => r.user_id == userId) = [] :=
    List.filter_eq_nil_iff.mpr (fun r hr hpr => h r hr (by simpa using hpr))
  simp [plaidItemsGET, latestPlaidItem, hfil, sortRowsNewestFirst]

/-- C9 witness: a store holding only a row of another user. -/
theorem plaid_items_empty_success_witness :
    (∀ r ∈ [wRowB], r.user_id ≠ "nobody") ∧
    plaidItemsGET [wRowB] "nobody" =
      { status := 200, success := true, item_id := none } :=
  ⟨by decide, plaid_items_empty_success [wRowB] "nobody" (by decide)⟩

/-- Fixture transactions for the sort claims: `txOld` precedes `txNew`
in provider order but has the older date. -/
def txOld : Tx := { date := 10, name := "older" }

/-- Fixture transaction with the newer date. -/
def txNew : Tx := { date := 20, name := "newer" }

/-- C8 counterexample: the transaction view GET returns a successful
fetch whose transaction list is NOT the provider order - the two
transactions come back reordered (sorted by date, newest first), so the
response is not the provider response passed through unmodified. -/
theorem get_transactions_sorted_counterexample :
    (getTransactionsViewGET [wRowU1] "u1" (some [txOld, txNew])).status = 200 ∧
    (getTransactionsViewGET [wRowU1] "u1" (some [txOld, txNew])).success = true ∧
    (getTransactionsViewGET [wRowU1] "u1" (some [txOld, txNew])).transactions ≠
      [txOld, txNew] ∧
    (getTransactionsViewGET [wRowU1] "u1" (some [txOld, txNew])).transactions =
      [txNew, txOld] := by
  decide

/-- C8 amended.  The POST data-fetch passes the provider response
through unmodified - transactions, accounts and item metadata exactly as
received - while the GET view handler returns the fetched transactions
reordered: a permutation of them sorted by date, newest first. -/
theorem data_fetch_passthrough_amended (A : AEAD) (key : Bytes)
    (store store2 : List PlaidItemRow) (userId userId2 iid : String)
    (today : Nat)
    (provider : TransactionsRequest → Except PlaidError ProviderResponse)
    (row row2 : PlaidItemRow) (tok : Bytes) (resp : ProviderResponse)
    (txs : List Tx)
    (hfind : findPlaidItem store iid userId = some row)
    (hdec : decrypt A key row.access_token = Except.ok tok)
    (hprov : provider { access_token := tok, start_date := today - 30,
                        end_date := today, count := 500, offset := 0 } =
      Except.ok resp)
    (hlatest : latestPlaidItem store2 userId2 = some row2) :
    ((getTransactionsPOST A key store userId (some iid) today provider).response.transactions
        = resp.transactions ∧
      (getTransactionsPOST A key store userId (some iid) today provider).response.accounts
        = resp.accounts ∧
      (getTransactionsPOST A key store userId (some iid) today provider).response.item
        = some resp.item ∧
      (getTransactionsPOST A key store userId (some iid) today provider).response.status
        = 200 ∧
      (getTransactionsPOST A key store userId (some iid) today provider).response.success
        = true) ∧
    ((getTransactionsViewGET store2 userId2 (some txs)).transactions =
        sortNewestFirst txs ∧
      (getTransactionsViewGET store2 userId2 (some txs)).transactions.Perm txs ∧
      (getTransactionsViewGET store2 userId2 (some txs)).transactions.Pairwise
        (fun a b => b.date ≤ a.date)) := by
  constructor
  · simp [getTransactionsPOST, hfind, hdec, hprov]
  · refine ⟨by simp [getTransactionsViewGET, hlatest], ?_, ?_⟩
    · simp only [getTransactionsViewGET, hlatest]
      exact sortNewestFirst_perm txs
    · simp only [getTransactionsViewGET, hlatest]
      exact sorted_sortNewestFirst txs

/-- C8 amended witness: a concrete POST run passes the empty provider
response through; a concrete GET run returns the sorted fixture list. -/
theorem data_fetch_passthrough_amended_witness :
    (getTransactionsPOST xorAEAD [1] [wRowTok] "u1" (some "item-1") 100
      wOkProvider).response.transactions = [] ∧
    (getTransactionsViewGET [wRowU1] "u1" (some [txOld, txNew])).transactions =
      sortNewestFirst [txOld, txNew] :=
  ⟨(data_fetch_passthrough_amended xorAEAD [1] [wRowTok] [wRowU1] "u1" "u1"
      "item-1" 100 wOkProvider wRowTok wRowU1 [7]
      { transactions := [], accounts := [], item := { item_id := "item-1" } }
      [txOld, txNew] rfl rfl rfl rfl).1.1,
    (data_fetch_passthrough_amended xorAEAD [1] [wRowTok] [wRowU1] "u1" "u1"
      "item-1" 100 wOkProvider wRowTok wRowU1 [7]
      { transactions := [], accounts := [], item := { item_id := "item-1" } }
      [txOld, txNew] rfl rfl rfl rfl).2.1⟩

end CashCushion
